import Mathlib

/-!
Shallow embedding of DriftGuard's streaming state-reconciliation client
(`dashboard/src/hooks/useWebSocket.ts`) together with the derived analytics
used by `DriftChart.tsx` and `AgentStatus.tsx`.

Modelling conventions:
* JS numbers are modelled as `ℚ` (the repository only compares and copies
  them; no float rounding is relevant to the claims).
* `crypto.randomUUID()` and `new Date()` in the `event` branch are modelled
  by one monotone counter `tick` carried in the store: each synthesized
  event receives the current counter as its id and receipt timestamp, and
  the counter then increases.  Freshness and monotone receipt order are
  exactly what those runtime sources provide.
* A JS `Map` is modelled by an association list with `Map` semantics:
  `set` updates in place when the key exists (keeping insertion order) and
  appends otherwise; `get` is the first (unique) match.
* The browser event loop is modelled by an explicit event alphabet and a
  step function on a client state; sockets keep their handlers forever,
  as in the source, so a replaced socket still fires `onopen`/`onclose`.
-/

/-- Structure `PheromoneStatus` from `useWebSocket.ts`. -/
structure PheromoneStatus where
  name : String
  intensity : ℚ
  threshold : ℚ
  is_active : Bool
deriving DecidableEq, Repr

/-- Structure `PortfolioState` from `useWebSocket.ts`. -/
structure PortfolioState where
  total_value : ℚ
  stocks_value : ℚ
  bonds_value : ℚ
  stocks_pct : ℚ
  bonds_pct : ℚ
  last_trade_time : Option String
deriving DecidableEq, Repr

/-- Structure `SwarmEvent` from `useWebSocket.ts`; `id` (a UUID in the source) and
`timestamp` (a `Date` in the source) are both drawn from the monotone
client counter. -/
structure SwarmEvent where
  id : Nat
  type : String
  pheromone : String
  intensity : ℚ
  timestamp : Nat
deriving DecidableEq, Repr

/-- Structure `AgentMetric` from `useWebSocket.ts`. -/
structure AgentMetric where
  name : String
  is_active : Bool
  action_count : Nat
  last_action : String
  last_action_time : Option String
deriving DecidableEq, Repr

/-- Structure `TradeLogEntry` from `useWebSocket.ts`. -/
structure TradeLogEntry where
  id : String
  timestamp : String
  action : String
  symbol : String
  amount : ℚ
  price : ℚ
  portfolio_value : ℚ
  drift_before : ℚ
  drift_after : ℚ
deriving DecidableEq, Repr

/-- JS `Map<string, number[]>` as an association list with Map semantics. -/
abbrev HistMap := List (String × List ℚ)

/-- JS `Map.get` — first entry whose key matches. -/
def mapGet (m : HistMap) (k : String) : Option (List ℚ) :=
  (m.find? (fun p => p.1 == k)).map (fun p => p.2)

/-- JS `Map.set` — update in place when the key exists (insertion order kept),
append otherwise. -/
def mapSet (m : HistMap) (k : String) (v : List ℚ) : HistMap :=
  match m with
  | [] => [(k, v)]
  | (k', v') :: rest => if k' = k then (k, v) :: rest else (k', v') :: mapSet rest k v

/-- JS `xs.slice(-n)`: the last `n` elements (all of them when fewer). -/
def sliceLast (n : Nat) (xs : List ℚ) : List ℚ :=
  xs.drop (xs.length - n)

/-- The client-side store: the `useState` pieces of `useWebSocket`
(`state`, `agentMetrics`, `pheromoneHistory`, `tradeHistory`) plus the
monotone counter standing for the UUID source and the receipt clock. -/
structure Store where
  pheromones : List PheromoneStatus
  portfolio : Option PortfolioState
  connected : Bool
  events : List SwarmEvent
  agentMetrics : List AgentMetric
  pheromoneHistory : HistMap
  tradeHistory : List TradeLogEntry
  tick : Nat
deriving DecidableEq, Repr

/-- The initial store: everything empty, as created by the `useState`
initializers. -/
def initStore : Store :=
  { pheromones := []
    portfolio := none
    connected := false
    events := []
    agentMetrics := []
    pheromoneHistory := []
    tradeHistory := []
    tick := 0 }

/-- One history append for one listed entry:
`next.set(p.name, [...history.slice(-19), p.intensity])` with
`history = next.get(p.name) || []`. -/
def applyEntry (m : HistMap) (p : PheromoneStatus) : HistMap :=
  mapSet m p.name (sliceLast 19 ((mapGet m p.name).getD []) ++ [p.intensity])

/-- The history update of the `pheromone_update` branch: the `for` loop
over `data.pheromones`. -/
def updateHist (m : HistMap) (ps : List PheromoneStatus) : HistMap :=
  ps.foldl applyEntry m

/-- Effect of the `pheromone_update` branch on the store. -/
def pheromoneUpdateMut (s : Store) (ps : List PheromoneStatus) : Store :=
  { s with pheromones := ps, pheromoneHistory := updateHist s.pheromoneHistory ps }

/-- Effect of the `event` branch: synthesize a record with a fresh id and
receipt timestamp, prepend, keep the first 50. -/
def eventMut (s : Store) (event_type pheromone : String) (intensity : ℚ) : Store :=
  { s with
    events :=
      (({ id := s.tick, type := event_type, pheromone := pheromone,
          intensity := intensity, timestamp := s.tick } : SwarmEvent) :: s.events).take 50
    tick := s.tick + 1 }

/-- A decoded inbound JSON envelope (`data` in `onmessage`); fields default
to empty, matching absent JSON fields that a recognized branch never
reads for a well-formed frame. -/
structure Msg where
  tag : String
  pheromones : List PheromoneStatus := []
  portfolio : Option PortfolioState := none
  agents : List AgentMetric := []
  trades : List TradeLogEntry := []
  event_type : String := ""
  pheromone : String := ""
  intensity : ℚ := 0
deriving DecidableEq, Repr

/-- The `onmessage` dispatcher.  `none` is a frame `JSON.parse` rejects:
the exception is caught and logged, the store untouched.  A decoded
envelope goes through the `if`/`else if` chain of the source in order;
an unrecognized `type` falls off the chain and changes nothing. -/
def onmessage (raw : Option Msg) (s : Store) : Store :=
  match raw with
  | none => s
  | some d =>
    if d.tag = "pheromone_update" then pheromoneUpdateMut s d.pheromones
    else if d.tag = "portfolio_update" then { s with portfolio := d.portfolio }
    else if d.tag = "agent_metrics" then { s with agentMetrics := d.agents }
    else if d.tag = "trade_history" then { s with tradeHistory := d.trades }
    else if d.tag = "event" then eventMut s d.event_type d.pheromone d.intensity
    else s

/-- A `pheromone_update` frame carrying a status list. -/
def pherMsg (ps : List PheromoneStatus) : Msg :=
  { tag := "pheromone_update", pheromones := ps }

/-- Run a sequence of `pheromone_update` frames through the dispatcher
from client start. -/
def runPheromones (frames : List (List PheromoneStatus)) : Store :=
  frames.foldl (fun s ps => onmessage (some (pherMsg ps)) s) initStore

/-- The intensities received for `name`, oldest first: frames flattened in
arrival order, entries restricted to those listing `name`. -/
def receivedIntensities (frames : List (List PheromoneStatus)) (name : String) : List ℚ :=
  (frames.flatten.filter (fun p => p.name == name)).map (fun p => p.intensity)

/-- The history buffer a store holds for `name` (empty when absent). -/
def histOf (s : Store) (name : String) : List ℚ :=
  (mapGet s.pheromoneHistory name).getD []

/-- Browser `WebSocket.readyState` values. -/
inductive ReadyState
  | connecting
  | opened
  | closing
  | closed
deriving DecidableEq, Repr

/-- The connection-manager refs: every socket ever constructed (handlers
stay attached for life, as in the source), the `wsRef` pointer, the
`reconnectTimeoutRef` cell, the set of scheduled-but-unfired timers, and
a fresh-timer counter. -/
structure ConnState where
  sockets : List ReadyState
  wsRef : Option Nat
  timerRef : Option Nat
  pending : List Nat
  nextTimer : Nat
deriving DecidableEq, Repr

/-- An outbound frame produced by the command channel. -/
inductive OutFrame
  | setAllocation (stocks_pct bonds_pct : ℚ)
  | resetIntent
deriving DecidableEq, Repr

/-- The whole client: connection refs, React store, and the frames written
to the wire so far. -/
structure Client where
  conn : ConnState
  store : Store
  outbox : List OutFrame
deriving DecidableEq, Repr

/-- The client at mount: no sockets, no timers, empty store. -/
def initClient : Client :=
  { conn := { sockets := [], wsRef := none, timerRef := none, pending := [], nextTimer := 0 }
    store := initStore
    outbox := [] }

/-- Read `wsRef.current?.readyState`. -/
def refState (c : ConnState) : Option ReadyState :=
  c.wsRef.bind (fun i => c.sockets.get? i)

/-- Function `connect()`: returns at once when the current socket is `OPEN`;
otherwise constructs a new socket (born `CONNECTING`) and repoints
`wsRef` at it. -/
def connect (cl : Client) : Client :=
  if refState cl.conn = some .opened then cl
  else
    { cl with conn :=
        { cl.conn with
          sockets := cl.conn.sockets ++ [.connecting]
          wsRef := some cl.conn.sockets.length } }

/-- First half of `disconnect()`: `clearTimeout` on the stored timer id
(a no-op when that timer already fired or none was ever stored). -/
def clearReconnectTimer (c : ConnState) : ConnState :=
  match c.timerRef with
  | none => c
  | some t => { c with pending := c.pending.erase t }

/-- Second half of `disconnect()`: `wsRef.current?.close()` — a live
socket moves to `CLOSING`; its `onclose` arrives later as an event. -/
def closeRef (c : ConnState) : ConnState :=
  match c.wsRef with
  | none => c
  | some i =>
    match c.sockets.get? i with
    | some .connecting => { c with sockets := c.sockets.set i .closing }
    | some .opened => { c with sockets := c.sockets.set i .closing }
    | _ => c

/-- Function `disconnect()`: cancel the stored reconnect timer, then close the
current socket. -/
def disconnect (cl : Client) : Client :=
  { cl with conn := closeRef (clearReconnectTimer cl.conn) }

/-- Function `setAllocation(stocksPct, bondsPct)`: sends one intent frame when the
current socket is `OPEN`, otherwise does nothing at all. -/
def setAllocation (cl : Client) (stocksPct bondsPct : ℚ) : Client :=
  if refState cl.conn = some .opened then
    { cl with outbox := cl.outbox ++ [.setAllocation stocksPct bondsPct] }
  else cl

/-- Function `reset()`: sends the bare reset frame when the current socket is
`OPEN`, otherwise does nothing. -/
def reset (cl : Client) : Client :=
  if refState cl.conn = some .opened then
    { cl with outbox := cl.outbox ++ [.resetIntent] }
  else cl

/-- Handler `onopen` of socket `i` (fires only for a socket still `CONNECTING`):
the socket becomes `OPEN` and the connectivity flag true. -/
def sockOpens (cl : Client) (i : Nat) : Client :=
  match cl.conn.sockets.get? i with
  | some .connecting =>
    { cl with
      conn := { cl.conn with sockets := cl.conn.sockets.set i .opened }
      store := { cl.store with connected := true } }
  | _ => cl

/-- Handler `onclose` of socket `i` (fires once, for any not-yet-closed socket,
whether or not `wsRef` still points at it): connectivity false, and a
fresh reconnect timer is scheduled and stored in `reconnectTimeoutRef`. -/
def sockCloses (cl : Client) (i : Nat) : Client :=
  match cl.conn.sockets.get? i with
  | some .closed => cl
  | none => cl
  | some _ =>
    { cl with
      conn :=
        { cl.conn with
          sockets := cl.conn.sockets.set i .closed
          timerRef := some cl.conn.nextTimer
          pending := cl.conn.pending ++ [cl.conn.nextTimer]
          nextTimer := cl.conn.nextTimer + 1 }
      store := { cl.store with connected := false } }

/-- A scheduled timer fires: it leaves the pending set and its callback —
`connect` — runs. -/
def timerFires (cl : Client) (t : Nat) : Client :=
  if t ∈ cl.conn.pending then
    connect { cl with conn := { cl.conn with pending := cl.conn.pending.erase t } }
  else cl

/-- The event alphabet of one client execution. -/
inductive Ev
  | connectCall
  | disconnectCall
  | opens (i : Nat)
  | closes (i : Nat)
  | fires (t : Nat)
  | recv (m : Option Msg)
  | sendAlloc (sp bp : ℚ)
  | sendReset
deriving DecidableEq, Repr

/-- One step of the event loop. -/
def step (cl : Client) : Ev → Client
  | .connectCall => connect cl
  | .disconnectCall => disconnect cl
  | .opens i => sockOpens cl i
  | .closes i => sockCloses cl i
  | .fires t => timerFires cl t
  | .recv m => { cl with store := onmessage m cl.store }
  | .sendAlloc sp bp => setAllocation cl sp bp
  | .sendReset => reset cl

/-- Run an event trace. -/
def run (cl : Client) (es : List Ev) : Client :=
  es.foldl step cl

/-- How many `connect()` invocations event `e` causes in state `cl`:
a direct call always, a timer firing exactly when it is still pending. -/
def connectCallsOf (cl : Client) : Ev → Nat
  | .connectCall => 1
  | .fires t => if t ∈ cl.conn.pending then 1 else 0
  | _ => 0

/-- Total number of `connect()` invocations along a trace. -/
def countConnects (cl : Client) : List Ev → Nat
  | [] => 0
  | e :: es => connectCallsOf cl e + countConnects (step cl e) es

/-- The severity labels of `DriftChart.tsx`. -/
inductive Severity
  | aligned
  | minor
  | moderate
  | critical
deriving DecidableEq, Repr

/-- Function `getSeverity` from `DriftChart.tsx` (label only; colors are styling). -/
def getSeverity (drift : ℚ) : Severity :=
  if drift ≤ 2 then .aligned
  else if drift ≤ 5 then .minor
  else if drift ≤ 10 then .moderate
  else .critical

/-- Value `driftPct` from `DriftChart.tsx`:
`Math.abs(currentStocksPct - targetStocksPct)`. -/
def driftPct (currentStocksPct targetStocksPct : ℚ) : ℚ :=
  |currentStocksPct - targetStocksPct|

/-- Function `isActive` from `AgentStatus.tsx`: the authoritative metric entry wins;
otherwise the entry agent (listening to `External API`) is active, and
any other agent inherits its upstream signal's `is_active` flag,
defaulting to false when the signal is absent. -/
def isActive (agentMetrics : List AgentMetric) (pheromones : List PheromoneStatus)
    (name listenTo : String) : Bool :=
  match agentMetrics.find? (fun m => m.name == name) with
  | some metric => metric.is_active
  | none =>
    if listenTo = "External API" then true
    else
      match pheromones.find? (fun p => p.name == listenTo) with
      | some pheromone => pheromone.is_active
      | none => false

/-- Last `n+1` of an append is last `n` followed by the new element. -/
theorem sliceLast_append_one (n : Nat) (xs : List ℚ) (x : ℚ) :
    sliceLast (n + 1) (xs ++ [x]) = sliceLast n xs ++ [x] := by
  unfold sliceLast
  have h : xs.length - n ≤ xs.length := Nat.sub_le _ _
  rw [List.length_append, List.length_singleton]
  rw [show xs.length + 1 - (n + 1) = xs.length - n by omega]
  rw [List.drop_append_of_le_length h]

/-- Taking the last `m` of the last `n` is the last `m` when `m ≤ n`. -/
theorem sliceLast_sliceLast (m n : Nat) (xs : List ℚ) (h : m ≤ n) :
    sliceLast m (sliceLast n xs) = sliceLast m xs := by
  unfold sliceLast
  rw [List.length_drop, List.drop_drop]
  congr 1
  omega

/-- The last `n` elements number at most `n`. -/
theorem sliceLast_length_le (n : Nat) (xs : List ℚ) :
    (sliceLast n xs).length ≤ n := by
  unfold sliceLast
  rw [List.length_drop]
  omega

/-- Evaluating `mapGet` on a cons cell. -/
theorem mapGet_cons (k0 : String) (v0 : List ℚ) (rest : HistMap) (k : String) :
    mapGet ((k0, v0) :: rest) k = if k0 = k then some v0 else mapGet rest k := by
  by_cases h : k0 = k
  · rw [mapGet, List.find?_cons_of_pos _ (by simpa using h), if_pos h]
    rfl
  · rw [mapGet, List.find?_cons_of_neg _ (by simpa using h), if_neg h]
    rfl

/-- Reading back `mapGet` after `mapSet` at the written key. -/
theorem mapGet_mapSet_self (m : HistMap) (k : String) (v : List ℚ) :
    mapGet (mapSet m k v) k = some v := by
  induction m with
  | nil => simp [mapSet, mapGet_cons]
  | cons p rest ih =>
    obtain ⟨k0, v0⟩ := p
    by_cases h : k0 = k
    · simp [mapSet, h, mapGet_cons]
    · simp [mapSet, h, mapGet_cons, ih]

/-- Reading `mapGet` after `mapSet` at a different key. -/
theorem mapGet_mapSet_other (m : HistMap) (k k' : String) (v : List ℚ)
    (h : k' ≠ k) : mapGet (mapSet m k v) k' = mapGet m k' := by
  induction m with
  | nil => simp [mapSet, mapGet_cons, Ne.symm h]
  | cons p rest ih =>
    obtain ⟨k0, v0⟩ := p
    by_cases hk : k0 = k
    · subst hk
      simp [mapSet, mapGet_cons, Ne.symm h]
    · by_cases hk' : k0 = k'
      · simp [mapSet, hk, mapGet_cons, hk', h]
      · simp [mapSet, hk, mapGet_cons, hk', ih]

/-- Updating with `mapSet` never deletes a key. -/
theorem mapGet_mapSet_isSome (m : HistMap) (k k' : String) (v : List ℚ)
    (h : (mapGet m k').isSome) : (mapGet (mapSet m k v) k').isSome := by
  by_cases hk : k' = k
  · subst hk
    rw [mapGet_mapSet_self]
    rfl
  · rwa [mapGet_mapSet_other _ _ _ _ hk]

/-- Intensities one frame contributes to `name`'s history. -/
def entryIntensities (ps : List PheromoneStatus) (name : String) : List ℚ :=
  (ps.filter (fun p => p.name == name)).map (fun p => p.intensity)

/-- The history map realises, per name, the 20-sample sliding window over
the receipt log `f`. -/
def HistInv (m : HistMap) (f : String → List ℚ) : Prop :=
  ∀ name, (mapGet m name).getD [] = sliceLast 20 (f name)

theorem receivedIntensities_cons (ps : List PheromoneStatus)
    (frames : List (List PheromoneStatus)) (name : String) :
    receivedIntensities (ps :: frames) name =
      entryIntensities ps name ++ receivedIntensities frames name := by
  simp [receivedIntensities, entryIntensities]

theorem applyEntry_inv (m : HistMap) (f : String → List ℚ) (p : PheromoneStatus)
    (h : HistInv m f) :
    HistInv (applyEntry m p)
      (fun n => if n = p.name then f n ++ [p.intensity] else f n) := by
  intro name
  by_cases hn : name = p.name
  · subst hn
    have hv := h p.name
    rw [applyEntry, mapGet_mapSet_self]
    simp only [Option.getD_some, eq_self_iff_true, ite_true]
    rw [hv, sliceLast_sliceLast 19 20 _ (by omega),
      sliceLast_append_one 19 (f p.name) p.intensity]
  · rw [applyEntry, mapGet_mapSet_other _ _ _ _ hn]
    simp only [if_neg hn]
    exact h name

theorem updateHist_inv (ps : List PheromoneStatus) (m : HistMap)
    (f : String → List ℚ) (h : HistInv m f) :
    HistInv (updateHist m ps) (fun n => f n ++ entryIntensities ps n) := by
  induction ps generalizing m f with
  | nil =>
    intro name
    simpa [entryIntensities] using h name
  | cons p rest ih =>
    intro name
    have step := applyEntry_inv m f p h
    have := ih (applyEntry m p) _ step name
    rw [updateHist] at this ⊢
    simp only [List.foldl_cons]
    rw [this]
    by_cases hn : name = p.name
    · subst hn
      simp [entryIntensities, List.filter_cons, List.append_assoc]
    · have : ¬(p.name == name) = true := by
        simpa [beq_iff_eq] using fun a => hn a.symm
      simp [entryIntensities, List.filter_cons, hn, this]

theorem onmessage_pherMsg (ps : List PheromoneStatus) (s : Store) :
    onmessage (some (pherMsg ps)) s = pheromoneUpdateMut s ps := rfl

theorem foldPher_inv (frames : List (List PheromoneStatus)) (s : Store)
    (f : String → List ℚ) (h : HistInv s.pheromoneHistory f) :
    HistInv
      (frames.foldl (fun s ps => onmessage (some (pherMsg ps)) s) s).pheromoneHistory
      (fun n => f n ++ receivedIntensities frames n) := by
  induction frames generalizing s f with
  | nil =>
    intro name
    simpa [receivedIntensities] using h name
  | cons ps rest ih =>
    intro name
    have hstep : HistInv (pheromoneUpdateMut s ps).pheromoneHistory
        (fun n => f n ++ entryIntensities ps n) := by
      simpa [pheromoneUpdateMut] using updateHist_inv ps s.pheromoneHistory f h
    have hrec := ih (pheromoneUpdateMut s ps) _ hstep name
    simp only [List.foldl_cons, onmessage_pherMsg] at hrec ⊢
    rw [hrec, receivedIntensities_cons, List.append_assoc]

/-- C1: over any sequence of inbound `pheromone_update` frames, each
name's history buffer is exactly the last 20 intensities received for
that name, oldest first, and so never exceeds 20 samples; each frame
contributes one sample per listed entry, evicting the oldest beyond 20. -/
theorem pheromone_history_window (frames : List (List PheromoneStatus)) (name : String) :
    histOf (runPheromones frames) name = sliceLast 20 (receivedIntensities frames name) ∧
    (histOf (runPheromones frames) name).length ≤ 20 := by
  have h0 : HistInv initStore.pheromoneHistory (fun _ => []) := by
    intro n
    simp [initStore, mapGet, sliceLast]
  have h := foldPher_inv frames initStore _ h0 name
  have h1 : histOf (runPheromones frames) name
      = sliceLast 20 (receivedIntensities frames name) := by
    simpa [runPheromones, histOf] using h
  exact ⟨h1, h1 ▸ sliceLast_length_le 20 _⟩

/-- Payload of one inbound `event` frame. -/
structure EvFrame where
  event_type : String
  pheromone : String
  intensity : ℚ
deriving DecidableEq, Repr

/-- The decoded envelope of an `event` frame. -/
def evMsg (f : EvFrame) : Msg :=
  { tag := "event", event_type := f.event_type, pheromone := f.pheromone,
    intensity := f.intensity }

/-- The record the `event` branch synthesizes at counter value `t`. -/
def mkEvent (t : Nat) (f : EvFrame) : SwarmEvent :=
  { id := t, type := f.event_type, pheromone := f.pheromone,
    intensity := f.intensity, timestamp := t }

/-- All records a frame sequence synthesizes, in receipt order, starting
at counter value `t`. -/
def synthAll : List EvFrame → Nat → List SwarmEvent
  | [], _ => []
  | f :: fs, t => mkEvent t f :: synthAll fs (t + 1)

/-- Run a sequence of `event` frames through the dispatcher from client
start. -/
def runEvents (frames : List EvFrame) : Store :=
  frames.foldl (fun s f => onmessage (some (evMsg f)) s) initStore

theorem onmessage_evMsg (f : EvFrame) (s : Store) :
    onmessage (some (evMsg f)) s = eventMut s f.event_type f.pheromone f.intensity := rfl

theorem take_append_take (A L : List SwarmEvent) (n : Nat) :
    (A ++ L.take n).take n = (A ++ L).take n := by
  rw [List.take_append_eq_append_take, List.take_append_eq_append_take,
    List.take_take, Nat.min_eq_left (Nat.sub_le n A.length)]

theorem synthAll_length (fs : List EvFrame) (t : Nat) :
    (synthAll fs t).length = fs.length := by
  induction fs generalizing t with
  | nil => rfl
  | cons f fs ih => simp [synthAll, ih]

theorem synthAll_mem_ts (fs : List EvFrame) (t : Nat) :
    ∀ e ∈ synthAll fs t, t ≤ e.timestamp ∧ e.id = e.timestamp := by
  induction fs generalizing t with
  | nil => simp [synthAll]
  | cons f fs ih =>
    intro e he
    rcases List.mem_cons.mp he with h | h
    · subst h
      exact ⟨le_refl _, rfl⟩
    · have := ih (t + 1) e h
      exact ⟨by omega, this.2⟩

theorem synthAll_pairwise (fs : List EvFrame) (t : Nat) :
    (synthAll fs t).Pairwise (fun a b => a.timestamp < b.timestamp) := by
  induction fs generalizing t with
  | nil => simp [synthAll]
  | cons f fs ih =>
    refine List.Pairwise.cons ?_ (ih (t + 1))
    intro e he
    have := (synthAll_mem_ts fs (t + 1) e he).1
    simp only [mkEvent]
    omega

theorem runEventsFrom (fs : List EvFrame) (s : Store) (h : s.events.length ≤ 50) :
    (fs.foldl (fun s f => onmessage (some (evMsg f)) s) s).events
        = ((synthAll fs s.tick).reverse ++ s.events).take 50 ∧
    (fs.foldl (fun s f => onmessage (some (evMsg f)) s) s).tick = s.tick + fs.length := by
  induction fs generalizing s with
  | nil =>
    simp [synthAll, List.take_of_length_le h]
  | cons f fs ih =>
    have hlen : (eventMut s f.event_type f.pheromone f.intensity).events.length ≤ 50 := by
      simp only [eventMut, List.length_take]
      omega
    have hrec := ih (eventMut s f.event_type f.pheromone f.intensity) hlen
    simp only [onmessage_evMsg] at hrec
    simp only [List.foldl_cons, onmessage_evMsg]
    refine ⟨?_, ?_⟩
    · rw [hrec.1]
      have htick : (eventMut s f.event_type f.pheromone f.intensity).tick = s.tick + 1 := rfl
      have hev : (eventMut s f.event_type f.pheromone f.intensity).events
          = (mkEvent s.tick f :: s.events).take 50 := rfl
      rw [htick, hev, show mkEvent s.tick f :: s.events = [mkEvent s.tick f] ++ s.events from rfl,
        take_append_take, ← List.append_assoc]
      have : (synthAll fs (s.tick + 1)).reverse ++ [mkEvent s.tick f]
          = (synthAll (f :: fs) s.tick).reverse := by
        simp [synthAll, List.reverse_cons]
      rw [this]
    · rw [hrec.2]
      have : (eventMut s f.event_type f.pheromone f.intensity).tick = s.tick + 1 := rfl
      rw [this, List.length_cons]
      omega

/-- C2: over any sequence of inbound `event` frames the log is the
receipt sequence reversed and truncated to 50: length never exceeds 50,
order is newest-first by receipt time, each frame contributes exactly one
synthesized record, and the client-generated ids are pairwise distinct. -/
theorem event_log_bounded_newest_first (frames : List EvFrame) :
    (runEvents frames).events = ((synthAll frames 0).reverse).take 50 ∧
    (runEvents frames).events.length = min 50 frames.length ∧
    (runEvents frames).events.length ≤ 50 ∧
    (runEvents frames).events.Pairwise (fun a b => b.timestamp < a.timestamp) ∧
    (runEvents frames).events.Pairwise (fun a b => a.id ≠ b.id) := by
  have h := (runEventsFrom frames initStore (by simp [initStore])).1
  have hev : (runEvents frames).events = ((synthAll frames 0).reverse).take 50 := by
    simpa [runEvents, initStore] using h
  have hptake : (((synthAll frames 0).reverse).take 50).Pairwise
      (fun a b => b.timestamp < a.timestamp) := by
    refine List.Pairwise.sublist (List.take_sublist _ _) ?_
    rw [List.pairwise_reverse]
    exact synthAll_pairwise frames 0
  have hmem : ∀ e ∈ ((synthAll frames 0).reverse).take 50, e.id = e.timestamp := by
    intro e he
    exact (synthAll_mem_ts frames 0 e
      (List.mem_reverse.mp (List.mem_of_mem_take he))).2
  have hid : (((synthAll frames 0).reverse).take 50).Pairwise
      (fun a b => a.id ≠ b.id) := by
    refine hptake.imp_of_mem ?_
    intro a b ha hb hlt
    rw [hmem a ha, hmem b hb]
    omega
  refine ⟨hev, ?_, ?_, ?_, ?_⟩
  · rw [hev, List.length_take, List.length_reverse, synthAll_length]
  · rw [hev, List.length_take]
    omega
  · rw [hev]
    exact hptake
  · rw [hev]
    exact hid

/-- C3: a frame `JSON.parse` rejects, or whose `type` is none of the five
recognized discriminants, changes nothing in the store — signals,
histories, portfolio, agents, trades, events and the connectivity flag
all keep their values, and the dispatcher is a total function (the parse
exception is caught, nothing escapes). -/
theorem bad_frames_are_dropped (d : Msg) (s : Store)
    (h : d.tag ∉ ["pheromone_update", "portfolio_update", "agent_metrics",
      "trade_history", "event"]) :
    onmessage (some d) s = s ∧ onmessage none s = s := by
  simp only [List.mem_cons, List.not_mem_nil, or_false, not_or] at h
  obtain ⟨h1, h2, h3, h4, h5⟩ := h
  exact ⟨by simp [onmessage, h1, h2, h3, h4, h5], rfl⟩

/-- C3 witness at a concrete unrecognized frame. -/
theorem bad_frames_are_dropped_witness :
    onmessage (some { tag := "heartbeat" }) initStore = initStore ∧
    onmessage none initStore = initStore :=
  bad_frames_are_dropped { tag := "heartbeat" } initStore (by decide)

theorem updateHist_not_listed (ps : List PheromoneStatus) (m : HistMap) (name : String)
    (h : name ∉ ps.map (fun p => p.name)) :
    mapGet (updateHist m ps) name = mapGet m name := by
  induction ps generalizing m with
  | nil => rfl
  | cons p rest ih =>
    simp only [List.map_cons, List.mem_cons, not_or] at h
    rw [updateHist, List.foldl_cons]
    rw [show List.foldl applyEntry (applyEntry m p) rest
        = updateHist (applyEntry m p) rest from rfl]
    rw [ih _ h.2, applyEntry, mapGet_mapSet_other _ _ _ _ h.1]

theorem updateHist_isSome (ps : List PheromoneStatus) (m : HistMap) (name : String)
    (h : (mapGet m name).isSome) : (mapGet (updateHist m ps) name).isSome := by
  induction ps generalizing m with
  | nil => exact h
  | cons p rest ih =>
    rw [updateHist, List.foldl_cons]
    exact ih _ (mapGet_mapSet_isSome _ _ _ _ h)

/-- C10: a `pheromone_update` frame leaves the history of every name it
does not list untouched, and no inbound frame whatsoever removes a name
from the history map — the history survives the wholesale replacement of
the current status collection. -/
theorem history_never_dropped (s : Store) (name : String) :
    (∀ ps, name ∉ ps.map (fun p => p.name) →
      mapGet (onmessage (some (pherMsg ps)) s).pheromoneHistory name
        = mapGet s.pheromoneHistory name) ∧
    (∀ m, (mapGet s.pheromoneHistory name).isSome →
      (mapGet (onmessage m s).pheromoneHistory name).isSome) := by
  constructor
  · intro ps h
    rw [onmessage_pherMsg]
    exact updateHist_not_listed ps s.pheromoneHistory name h
  · intro m h
    match m with
    | none => exact h
    | some d =>
      rw [onmessage]
      split_ifs
      · exact updateHist_isSome _ _ _ h
      · exact h
      · exact h
      · exact h
      · exact h
      · exact h

/-- C10 witness: a frame listing only `B` leaves `A`'s history in place. -/
theorem history_never_dropped_witness :
    mapGet (onmessage (some (pherMsg [⟨"B", (1 : ℚ), 1, true⟩]))
        { initStore with pheromoneHistory := [("A", [(1 : ℚ)])] }).pheromoneHistory "A"
      = mapGet ({ initStore with
          pheromoneHistory := [("A", [(1 : ℚ)])] } : Store).pheromoneHistory "A" ∧
    (mapGet (onmessage (some (pherMsg [⟨"B", (1 : ℚ), 1, true⟩]))
        { initStore with pheromoneHistory := [("A", [(1 : ℚ)])] }).pheromoneHistory "A").isSome :=
  ⟨(history_never_dropped { initStore with pheromoneHistory := [("A", [(1 : ℚ)])] } "A").1
      [⟨"B", (1 : ℚ), 1, true⟩] (by decide),
   (history_never_dropped { initStore with pheromoneHistory := [("A", [(1 : ℚ)])] } "A").2
      (some (pherMsg [⟨"B", (1 : ℚ), 1, true⟩])) (by decide)⟩

theorem getSeverity_aligned_iff (d : ℚ) : getSeverity d = .aligned ↔ d ≤ 2 := by
  rw [getSeverity]
  split_ifs with h1 h2 h3 <;> constructor <;> intro h <;>
    first
      | rfl
      | exact absurd h (by decide)
      | exact ⟨by linarith, by linarith⟩
      | (exfalso; rcases h with ⟨ha, hb⟩; linarith)
      | (exfalso; linarith)
      | linarith

theorem getSeverity_minor_iff (d : ℚ) : getSeverity d = .minor ↔ 2 < d ∧ d ≤ 5 := by
  rw [getSeverity]
  split_ifs with h1 h2 h3 <;> constructor <;> intro h <;>
    first
      | rfl
      | exact absurd h (by decide)
      | exact ⟨by linarith, by linarith⟩
      | (exfalso; rcases h with ⟨ha, hb⟩; linarith)
      | (exfalso; linarith)
      | linarith

theorem getSeverity_moderate_iff (d : ℚ) : getSeverity d = .moderate ↔ 5 < d ∧ d ≤ 10 := by
  rw [getSeverity]
  split_ifs with h1 h2 h3 <;> constructor <;> intro h <;>
    first
      | rfl
      | exact absurd h (by decide)
      | exact ⟨by linarith, by linarith⟩
      | (exfalso; rcases h with ⟨ha, hb⟩; linarith)
      | (exfalso; linarith)
      | linarith

theorem getSeverity_critical_iff (d : ℚ) : getSeverity d = .critical ↔ 10 < d := by
  rw [getSeverity]
  split_ifs with h1 h2 h3 <;> constructor <;> intro h <;>
    first
      | rfl
      | exact absurd h (by decide)
      | exact ⟨by linarith, by linarith⟩
      | (exfalso; rcases h with ⟨ha, hb⟩; linarith)
      | (exfalso; linarith)
      | linarith

/-- C8: the severity of `drift = |current − target|` is Aligned exactly on
`drift ≤ 2`, Minor exactly on `2 < drift ≤ 5`, Moderate exactly on
`5 < drift ≤ 10`, Critical exactly on `drift > 10` — boundaries inclusive
on the lower tier. -/
theorem drift_severity_tiers (cur tgt : ℚ) :
    (getSeverity (driftPct cur tgt) = .aligned ↔ driftPct cur tgt ≤ 2) ∧
    (getSeverity (driftPct cur tgt) = .minor ↔
      2 < driftPct cur tgt ∧ driftPct cur tgt ≤ 5) ∧
    (getSeverity (driftPct cur tgt) = .moderate ↔
      5 < driftPct cur tgt ∧ driftPct cur tgt ≤ 10) ∧
    (getSeverity (driftPct cur tgt) = .critical ↔ 10 < driftPct cur tgt) :=
  ⟨getSeverity_aligned_iff _, getSeverity_minor_iff _,
   getSeverity_moderate_iff _, getSeverity_critical_iff _⟩

/-- C9: the authoritative metric entry decides activity when present; with
none, the entry agent (upstream `External API`) is active, and any other
agent is active exactly when its upstream signal exists and is active —
resolved for each agent on its own. -/
theorem agent_activity_resolution (ms : List AgentMetric) (ps : List PheromoneStatus)
    (agentName upstream : String) :
    (∀ m, ms.find? (fun x => x.name == agentName) = some m →
        isActive ms ps agentName upstream = m.is_active) ∧
    (ms.find? (fun x => x.name == agentName) = none → upstream = "External API" →
        isActive ms ps agentName upstream = true) ∧
    (ms.find? (fun x => x.name == agentName) = none → upstream ≠ "External API" →
        ∀ p, ps.find? (fun x => x.name == upstream) = some p →
          isActive ms ps agentName upstream = p.is_active) ∧
    (ms.find? (fun x => x.name == agentName) = none → upstream ≠ "External API" →
        ps.find? (fun x => x.name == upstream) = none →
          isActive ms ps agentName upstream = false) := by
  refine ⟨?_, ?_, ?_, ?_⟩
  · intro m hm
    simp [isActive, hm]
  · intro hm hup
    simp [isActive, hm, hup]
  · intro hm hup p hp
    simp [isActive, hm, hup, hp]
  · intro hm hup hp
    simp [isActive, hm, hup, hp]

/-- C9 witness: the spec's fallback example — no metrics ever received,
signal `Price Freshness` inactive: the listening agent is inactive, the
entry agent active. -/
theorem agent_activity_resolution_witness :
    isActive [] [⟨"Price Freshness", (1 : ℚ), 1, false⟩] "Analyst" "Price Freshness" = false ∧
    isActive [] [⟨"Price Freshness", (1 : ℚ), 1, false⟩] "Sensor" "External API" = true :=
  ⟨(agent_activity_resolution [] [⟨"Price Freshness", (1 : ℚ), 1, false⟩]
        "Analyst" "Price Freshness").2.2.1 rfl (by decide)
      ⟨"Price Freshness", (1 : ℚ), 1, false⟩ (by decide),
   (agent_activity_resolution [] [⟨"Price Freshness", (1 : ℚ), 1, false⟩]
        "Sensor" "External API").2.1 rfl rfl⟩

/-- C4 counterexample: a second `connect()` while the first connection is
still being established (`CONNECTING`, not `OPEN`) constructs a second
socket and repoints the ref — the call is not a no-op. -/
theorem connect_creates_socket_while_connecting :
    (connect initClient).conn.sockets = [.connecting] ∧
    (connect (connect initClient)).conn.sockets = [.connecting, .connecting] ∧
    connect (connect initClient) ≠ connect initClient := by
  decide

/-- C4 (amended): `connect()` is a no-op — no new connection, no state
change — exactly when the current socket is already `OPEN`; while a
connection is merely being established it builds a fresh socket. -/
theorem connect_noop_when_open (cl : Client)
    (h : refState cl.conn = some .opened) : connect cl = cl := by
  rw [connect, if_pos h]

/-- C4 witness: an established client is untouched by `connect()`. -/
theorem connect_noop_when_open_witness :
    connect (run initClient [.connectCall, .opens 0]) = run initClient [.connectCall, .opens 0] :=
  connect_noop_when_open _ (by decide)

/-- C5: the teardown trace evaluated — connect, open, `disconnect()`;
the socket close that `disconnect` triggered then fires `onclose`, which
schedules a reconnect timer (`pending = [0]`), and that timer makes a
second `connect()` call strictly after teardown. -/
theorem reconnect_fires_after_teardown :
    countConnects initClient [.connectCall, .opens 0, .disconnectCall] = 1 ∧
    (run initClient [.connectCall, .opens 0, .disconnectCall, .closes 0]).conn.pending = [0] ∧
    countConnects initClient
      [.connectCall, .opens 0, .disconnectCall, .closes 0, .fires 0] = 2 := by
  decide

/-- C6 counterexample: loss of socket 0, an interleaved manual
`reconnect()`, then the scheduled timer: the timer's `connect()` does not
recognise the manually opened attempt (it is only `CONNECTING`), so two
sockets are being established concurrently. -/
theorem duplicate_concurrent_reconnects :
    (run initClient
      [.connectCall, .opens 0, .closes 0, .connectCall, .fires 0]).conn.sockets
      = [.closed, .connecting, .connecting] := by
  decide

/-- Timer ids pending in a client are below the fresh-timer counter. -/
def timersBounded (cl : Client) : Prop :=
  ∀ t ∈ cl.conn.pending, t < cl.conn.nextTimer

theorem clearReconnectTimer_nextTimer (c : ConnState) :
    (clearReconnectTimer c).nextTimer = c.nextTimer := by
  rw [clearReconnectTimer]
  cases c.timerRef <;> rfl

theorem clearReconnectTimer_pending_sub (c : ConnState) :
    ∀ t ∈ (clearReconnectTimer c).pending, t ∈ c.pending := by
  rw [clearReconnectTimer]
  cases c.timerRef with
  | none => exact fun t ht => ht
  | some t0 => exact fun t ht => List.mem_of_mem_erase ht

theorem closeRef_pending (c : ConnState) : (closeRef c).pending = c.pending := by
  unfold closeRef
  split
  · rfl
  · split <;> rfl

theorem closeRef_nextTimer (c : ConnState) : (closeRef c).nextTimer = c.nextTimer := by
  unfold closeRef
  split
  · rfl
  · split <;> rfl

theorem timersBounded_connect (cl : Client) (h : timersBounded cl) :
    timersBounded (connect cl) := by
  intro t
  rw [connect]
  split_ifs
  · exact h t
  · exact h t

theorem timersBounded_step (cl : Client) (e : Ev) (h : timersBounded cl) :
    timersBounded (step cl e) := by
  cases e with
  | connectCall => exact timersBounded_connect cl h
  | disconnectCall =>
    intro t ht
    have ht1 : t ∈ (closeRef (clearReconnectTimer cl.conn)).pending := ht
    rw [closeRef_pending] at ht1
    have ht2 := clearReconnectTimer_pending_sub cl.conn t ht1
    show t < (closeRef (clearReconnectTimer cl.conn)).nextTimer
    rw [closeRef_nextTimer, clearReconnectTimer_nextTimer]
    exact h t ht2
  | opens i =>
    intro t
    simp only [step, sockOpens]
    cases cl.conn.sockets.get? i with
    | none => exact h t
    | some rs => cases rs <;> exact h t
  | closes i =>
    intro t
    simp only [step, sockCloses]
    cases cl.conn.sockets.get? i with
    | none => exact h t
    | some rs =>
      cases rs
      case closed => exact h t
      all_goals
        intro ht
        have ht' : t ∈ cl.conn.pending ++ [cl.conn.nextTimer] := ht
        show t < cl.conn.nextTimer + 1
        rcases List.mem_append.mp ht' with h1 | h1
        · exact Nat.lt_succ_of_lt (h t h1)
        · rw [List.mem_singleton] at h1
          omega
  | fires t0 =>
    intro t
    simp only [step, timerFires]
    split_ifs with hmem
    · refine fun ht => timersBounded_connect _ ?_ t ht
      intro u hu
      exact h u (List.mem_of_mem_erase hu)
    · exact h t
  | recv m => exact h
  | sendAlloc sp bp =>
    intro t
    simp only [step, setAllocation]
    split_ifs
    · exact h t
    · exact h t
  | sendReset =>
    intro t
    simp only [step, reset]
    split_ifs
    · exact h t
    · exact h t

theorem timersBounded_run (es : List Ev) : timersBounded (run initClient es) := by
  have hgen : ∀ cl, timersBounded cl → timersBounded (List.foldl step cl es) := by
    induction es with
    | nil => exact fun cl h => h
    | cons e rest ih => exact fun cl h => ih (step cl e) (timersBounded_step cl e h)
  exact hgen initClient (by intro t ht; cases ht)

theorem connect_pending (cl : Client) :
    (connect cl).conn.pending = cl.conn.pending := by
  rw [connect]
  split_ifs <;> rfl

/-- C6 (amended): from any reachable client state, the loss of any
not-yet-closed socket marks connectivity false and schedules exactly one
reconnect timer; when that timer fires it makes exactly one `connect()`
call and leaves the pending set as before the loss.  (The original claim
is refuted by `duplicate_concurrent_reconnects`: an interleaved manual
`reconnect()` leaves two sockets being established concurrently, because
the timer's `connect()` only recognises an `OPEN` socket.) -/
theorem one_reconnect_per_loss (es : List Ev) (i : Nat) (rs : ReadyState)
    (hrs : (run initClient es).conn.sockets.get? i = some rs) (hne : rs ≠ .closed) :
    (step (run initClient es) (.closes i)).store.connected = false ∧
    (step (run initClient es) (.closes i)).conn.pending
      = (run initClient es).conn.pending ++ [(run initClient es).conn.nextTimer] ∧
    countConnects (step (run initClient es) (.closes i))
      [.fires (run initClient es).conn.nextTimer] = 1 ∧
    (step (step (run initClient es) (.closes i))
        (.fires (run initClient es).conn.nextTimer)).conn.pending
      = (run initClient es).conn.pending := by
  set cl := run initClient es with hcl
  have hb : timersBounded cl := timersBounded_run es
  have hnt : cl.conn.nextTimer ∉ cl.conn.pending := by
    intro hmem
    exact absurd (hb _ hmem) (lt_irrefl _)
  have hstep : step cl (.closes i) = { cl with
      conn := { cl.conn with
        sockets := cl.conn.sockets.set i .closed
        timerRef := some cl.conn.nextTimer
        pending := cl.conn.pending ++ [cl.conn.nextTimer]
        nextTimer := cl.conn.nextTimer + 1 }
      store := { cl.store with connected := false } } := by
    show sockCloses cl i = _
    unfold sockCloses
    rw [hrs]
    cases rs
    case closed => exact absurd rfl hne
    all_goals rfl
  refine ⟨?_, ?_, ?_, ?_⟩
  · rw [hstep]
  · rw [hstep]
  · rw [hstep]
    simp [countConnects, connectCallsOf]
  · rw [hstep]
    show (timerFires _ _).conn.pending = _
    rw [timerFires]
    rw [if_pos (by simp)]
    rw [connect_pending]
    show (cl.conn.pending ++ [cl.conn.nextTimer]).erase cl.conn.nextTimer = _
    rw [List.erase_append_right _ hnt, List.erase_cons_head, List.append_nil]

/-- C6 witness: losing the very first (still connecting) socket flips
connectivity to false. -/
theorem one_reconnect_per_loss_witness :
    (run initClient [Ev.connectCall]).conn.sockets.get? 0 = some .connecting ∧
    (step (run initClient [Ev.connectCall]) (.closes 0)).store.connected = false :=
  ⟨by decide,
   (one_reconnect_per_loss [Ev.connectCall] 0 .connecting (by decide) (by decide)).1⟩

/-- C7: `set_allocation` and `reset` issued while the connection is not
open produce no outbound frame, queue nothing, and throw nothing (both
are total functions that return the client unchanged); and in every case
neither command mutates the store or the connection — only the wire. -/
theorem commands_noop_when_disconnected (cl : Client) (sp bp : ℚ) :
    (refState cl.conn ≠ some .opened →
      setAllocation cl sp bp = cl ∧ reset cl = cl) ∧
    (setAllocation cl sp bp).store = cl.store ∧
    (setAllocation cl sp bp).conn = cl.conn ∧
    (reset cl).store = cl.store ∧
    (reset cl).conn = cl.conn := by
  refine ⟨?_, ?_, ?_, ?_, ?_⟩
  · intro h
    rw [setAllocation, if_neg h, reset, if_neg h]
    exact ⟨rfl, rfl⟩
  · rw [setAllocation]
    split_ifs <;> rfl
  · rw [setAllocation]
    split_ifs <;> rfl
  · rw [reset]
    split_ifs <;> rfl
  · rw [reset]
    split_ifs <;> rfl

/-- C7 witness: on the freshly mounted (unconnected) client both commands
return the client unchanged. -/
theorem commands_noop_when_disconnected_witness :
    setAllocation initClient 60 40 = initClient ∧ reset initClient = initClient :=
  (commands_noop_when_disconnected initClient 60 40).1 (by decide)
